import Mathlib

/-
Verification of the streaming aggregation engine of Overview.py.

The script ingests a pipe-separated inventory file, decomposes a backslash
path out of each row, and aggregates size / subfolder / file statistics per
(drive, top-level folder) key.  Below, the relevant parts of the source are
embedded shallowly: Python strings become Lean `String`, Python lists become
Lean `List`, the `defaultdict` store becomes an insertion-ordered association
list, and the Python `set` of subfolders becomes a `Finset String`.

String primitives (split / join / strip) are re-implemented structurally over
`List Char` so that every definition is kernel-executable on concrete input.
-/

/-- Whitespace predicate used by Python str.strip() (ASCII subset; the input
paths considered contain no exotic whitespace). -/
def isSpace (c : Char) : Bool := c = ' ' || c = '\t' || c = '\n' || c = '\r'

/-- Drop matching characters from both ends of a character list. -/
def dropAround (p : Char → Bool) (l : List Char) : List Char :=
  ((l.dropWhile p).reverse.dropWhile p).reverse

/-- Python str.strip() with no argument: trim surrounding whitespace. -/
def trimStr (s : String) : String := ⟨dropAround isSpace s.toList⟩

/-- Python str.strip(c): trim every leading/trailing occurrence of `c`. -/
def stripBoth (c : Char) (s : String) : String :=
  ⟨dropAround (fun x => x = c) s.toList⟩

/-- Python `c in s` membership test for a single character. -/
def containsChar (s : String) (c : Char) : Bool := s.toList.contains c

/-- Split a character list on a separator character, Python str.split(sep)
semantics: the empty list yields one empty group, n separators yield n+1
groups. -/
def splitChar (c : Char) : List Char → List (List Char)
  | [] => [[]]
  | x :: xs =>
    if x = c then [] :: splitChar c xs
    else
      match splitChar c xs with
      | [] => [[x]]
      | g :: gs => (x :: g) :: gs

/-- Python path.split('\\'). -/
def splitBS (s : String) : List String :=
  (splitChar '\\' s.toList).map (fun g => ⟨g⟩)

/-- Join character groups with a separator character, Python sep.join(...)
semantics. -/
def joinChar (c : Char) : List (List Char) → List Char
  | [] => []
  | g :: gs =>
    match gs with
    | [] => g
    | _ :: _ => g ++ c :: joinChar c gs

/-- Python '\\'.join(parts). -/
def joinBS (l : List String) : String := ⟨joinChar '\\' (l.map String.toList)⟩

/-- Python part.strip('"').strip("'") from Overview.py line 124. -/
def stripQuotes (p : String) : String := stripBoth '\'' (stripBoth '"' p)

/-- Python re.fullmatch(r'\d+', s): nonempty and all decimal digits.  (The
Python pattern also accepts non-ASCII Unicode digits; the feed is ASCII, so
digits are modelled as 0-9.) -/
def isDigitsStr (s : String) : Bool :=
  !s.toList.isEmpty && s.toList.all Char.isDigit

/-- Python int(s) on an all-digit string. -/
def toNatDigits (s : String) : ℕ :=
  s.toList.foldl (fun n c => n * 10 + (c.toNat - 48)) 0

/-- One aggregate bucket: Overview.py line 32,
`{'size': 0, 'subfolders': set(), 'files': 0}`. -/
structure Agg where
  size : ℕ
  subfolders : Finset String
  files : ℕ
deriving DecidableEq

/-- FolderKey = (drive, top-level folder), Overview.py line 119. -/
abbrev FolderKey := String × String

/-- The defaultdict store, as an insertion-ordered association list (Python
dicts preserve insertion order). -/
abbrev Store := List (FolderKey × Agg)

/-- Read a key from the store; a missing key reads as the zero-initialized
aggregate (defaultdict semantics: every read in the source is immediately
followed by a write that materializes the entry, see applyAgg). -/
def getAgg : Store → FolderKey → Agg
  | [], _ => ⟨0, ∅, 0⟩
  | (k', a) :: rest, k => if k' = k then a else getAgg rest k

/-- Write a key: replace the value in place if present (Python dict update
keeps the key position), append at the end otherwise. -/
def setAgg : Store → FolderKey → Agg → Store
  | [], k, a => [(k, a)]
  | (k', a') :: rest, k, a =>
    if k' = k then (k', a) :: rest else (k', a') :: setAgg rest k a

/-- Overview.py lines 92-96: first field containing both a backslash and a
period, stripped; `None` when no field qualifies. -/
def findFullName (row : List String) : Option String :=
  (row.find? (fun part => containsChar part '\\' && containsChar part '.')).map trimStr

/-- Overview.py lines 121-127: scan the row left to right and parse the first
field whose quote-stripped form is all digits; 0 when none matches. -/
def extractLength : List String → ℕ
  | [] => 0
  | part :: rest =>
    let candidate := stripQuotes part
    if isDigitsStr candidate then toNatDigits candidate else extractLength rest

/-- Overview.py lines 130-133: cumulative subfolder paths from directory
segment index 3 onward; the deepest entry is popped when the LAST DIRECTORY
segment (`parts[-1]`) contains a period. -/
def subfolderList (parts : List String) : List String :=
  let subs := (List.range (parts.length - 3)).map
    (fun j => joinBS ((parts.drop 3).take (j + 1)))
  if containsChar (parts.getLastD "") '.' then subs.dropLast else subs

/-- Overview.py lines 102-134 (path handling of one row): split the stripped
path, reject when fewer than 3 raw segments, drop the leaf, strip surrounding
backslashes from the joined directory, re-split, and derive drive,
top-level folder and the subfolder list.  `none` models the
"FullName malformed" rejection. -/
def decomposePath (full_name : String) : Option (FolderKey × List String) :=
  let path_parts := splitBS (trimStr full_name)
  if path_parts.length < 3 then none
  else
    let directory := stripBoth '\\' (joinBS path_parts.dropLast)
    let parts := splitBS directory
    let dt :=
      if 2 ≤ parts.length then
        ("\\\\" ++ parts.headD "" ++ "\\" ++ (parts.drop 1).headD "",
         if 2 < parts.length then (parts.drop 2).headD "" else "Not Applicable")
      else (directory, "Not Applicable")
    let subfolders := if 3 < parts.length then subfolderList parts else []
    some (dt, subfolders)

/-- Overview.py lines 134-137 on one attributed row: union the subfolders
into the bucket, add the parsed length, count the file.  When the source skips
line 134 (at most 3 directory segments) the subfolder list is empty and the
union is a no-op, so the three mutations are combined into one write. -/
def applyAgg (fd : Store) (k : FolderKey) (len : ℕ) (subs : List String) : Store :=
  let a := getAgg fd k
  setAgg fd k ⟨a.size + len, a.subfolders ∪ subs.toFinset, a.files + 1⟩

/-- The per-row body of process_chunk (Overview.py lines 92-137), minus the
server-name line that lives at chunk level: returns the updated store and the
skip reason, if any.  The `full_name = ""` branch mirrors Python's falsy test
`if not full_name` (unreachable in practice, kept for fidelity). -/
def processRowStep (fd : Store) (row : List String) : Store × Option String :=
  match findFullName row with
  | none => (fd, some "Missing FullName — row skipped.")
  | some full_name =>
    if full_name = "" then (fd, some "Missing FullName — row skipped.")
    else
      match decomposePath full_name with
      | none => (fd, some "FullName malformed — row skipped.")
      | some (k, subs) => (applyAgg fd k (extractLength row) subs, none)

/-- The effect of one row on the store (the Aggregator-facing view of
processRowStep: skipped rows leave the store unchanged). -/
def applyRow (fd : Store) (row : List String) : Store := (processRowStep fd row).1

/-- Derived classifier used in proofs: the (key, subfolders) attribution of a
row, `none` when the row is skipped by processRowStep. -/
def rowDecomp (row : List String) : Option (FolderKey × List String) :=
  match findFullName row with
  | none => none
  | some full_name => if full_name = "" then none else decomposePath full_name

/-- One chunk (Overview.py lines 86-140): fold the rows, threading the chunk's
local server_name (lines 89-90) and collecting error-log entries as
(line number, reason) pairs.  The try/except of the source only fires on
exceptions that cannot occur for rows of ≥ 3 fields, so it is not modelled. -/
structure ChunkOut where
  fd : Store
  sn : String
  errs : List (ℕ × String)

def processChunk (fd : Store) (sn : String) : List (ℕ × List String) → ChunkOut
  | [] => ⟨fd, sn, []⟩
  | (ln, row) :: rest =>
    let sn1 := if sn = "" || sn = "Unknown" then trimStr (row.headD "") else sn
    let step := processRowStep fd row
    let out := processChunk step.1 sn1 rest
    ⟨out.fd, out.sn, (step.2.map (fun m => (ln, m))).toList ++ out.errs⟩

/-- State threaded by the reading loop of process_csv (Overview.py
lines 42-57): the store, the error log so far, and the pending chunk. -/
structure RunState where
  folderData : Store
  errors : List (ℕ × String)
  chunk : List (ℕ × List String)

/-- One iteration of the reading loop (Overview.py lines 43-53): rows with
fewer than 3 fields are logged and skipped before chunking; other rows join
the pending chunk, which is flushed through process_chunk once it reaches
chunk_size.  `sn` is process_csv's server_name variable, passed by value on
every call; the value process_chunk rebinds internally is discarded here
exactly as Python discards it (strings are immutable and process_chunk
neither returns it nor declares it nonlocal). -/
def csvStep (chunk_size : ℕ) (sn : String) (st : RunState) (lr : ℕ × List String) : RunState :=
  if lr.2.length < 3 then
    ⟨st.folderData, st.errors ++ [(lr.1, "Too few columns — line skipped.")], st.chunk⟩
  else
    let chunk := st.chunk ++ [lr]
    if chunk_size ≤ chunk.length then
      let out := processChunk st.folderData sn chunk
      ⟨out.fd, st.errors ++ out.errs, []⟩
    else ⟨st.folderData, st.errors, chunk⟩

/-- Overview.py lines 55-57: the final partial chunk, if any, is processed
like a full one. -/
def finishRun (sn : String) (st : RunState) : RunState :=
  if st.chunk.isEmpty then st
  else
    let out := processChunk st.folderData sn st.chunk
    ⟨out.fd, st.errors ++ out.errs, []⟩

/-- Pair each data row with its 1-based file line number: the header is
line 1, so data row i (0-based) is line i+2 (Overview.py lines 40-44). -/
def numberRows (rows : List (List String)) : List (ℕ × List String) :=
  rows.enum.map (fun p => (p.1 + 2, p.2))

/-- Result of one run, as consumed by the report emitter: the final store,
the server_name process_csv holds when it writes the report (line 63), and
the error log. -/
structure RunResult where
  folderData : Store
  serverName : String
  errors : List (ℕ × String)

/-- process_csv's aggregation core (Overview.py lines 31-57 and the report
inputs of lines 60-69), on the list of data rows that follow the header.
server_name is initialized to 'Unknown' (line 33) and is never rebound in
process_csv itself — process_chunk's assignment is local to process_chunk —
so the value the report reads is whatever this variable still holds. -/
def processCsv (chunk_size : ℕ) (rows : List (List String)) : RunResult :=
  let server_name := "Unknown"
  let st := (numberRows rows).foldl (csvStep chunk_size server_name) ⟨[], [], []⟩
  let st := finishRun server_name st
  ⟨st.folderData, server_name, st.errors⟩

/-- Round-half-to-even at integer precision, the tie-breaking CPython's
round() uses. -/
def roundHalfEven (q : ℚ) : ℤ :=
  if Int.fract q < 1 / 2 then ⌊q⌋
  else if 1 / 2 < Int.fract q then ⌊q⌋ + 1
  else if ⌊q⌋ % 2 = 0 then ⌊q⌋ else ⌊q⌋ + 1

/-- Python round(x, 2). -/
def pyRound2 (q : ℚ) : ℚ := (roundHalfEven (q * 100) : ℚ) / 100

/-- Overview.py line 66: bytes to gigabytes, `round(size / 1024**3, 2)`.
Python computes this on binary floats; it is modelled over ℚ, which is exact
whenever the float operations are (in particular for sizes that are multiples
of 2^30 in the range considered). -/
def dataGB (sizeBytes : ℕ) : ℚ := pyRound2 ((sizeBytes : ℚ) / 1024 ^ 3)

/-- Modelled from the spec (§5): a conforming run that processes the whole
stream as a single batch — filter the too-short rows, then apply every
surviving row once, with no chunk boundaries. -/
def singleBatchFolderData (rows : List (List String)) : Store :=
  (rows.filter (fun r => !decide (r.length < 3))).foldl applyRow []

/-- Modelled from the spec (§4.1): the size rule as the spec words it — the
first field in left-to-right order whose quote-stripped form is all decimal
digits, parsed; 0 when no such field exists. -/
def sizeSpec (row : List String) : ℕ :=
  match row.find? (fun p => isDigitsStr (stripQuotes p)) with
  | some p => toNatDigits (stripQuotes p)
  | none => 0

/-- Modelled from the spec (§4.2 step 4): the cumulative subfolder entries
generated for a directory-segment list, before any discard. -/
def cumulativeEntries (parts : List String) : List String :=
  (List.range (parts.length - 3)).map (fun j => joinBS ((parts.drop 3).take (j + 1)))

/-- Modelled from the spec (§4.2 steps 1-2): the malformed-path test as the
spec words it — strip surrounding backslashes, split, drop the leaf, and
reject when fewer than 2 segments remain. -/
def specMalformed (path : String) : Bool :=
  ((splitBS (stripBoth '\\' path)).dropLast).length < 2

/-- A row that process_chunk attributes to a FolderKey (≥ 3 fields so it
reaches a chunk, and the path pipeline succeeds). -/
def rowAttributed (r : List String) : Bool :=
  !decide (r.length < 3) && (rowDecomp r).isSome

/-- Per-row weight in the error log: rows of fewer than 3 fields are logged
by the reading loop, surviving rows are logged iff the row pipeline skips
them. -/
def errWeight (r : List String) : ℕ :=
  if r.length < 3 then 1 else if (rowDecomp r).isNone then 1 else 0

theorem getAgg_setAgg_self (fd : Store) (k : FolderKey) (a : Agg) :
    getAgg (setAgg fd k a) k = a := by
  induction fd with
  | nil => simp [setAgg, getAgg]
  | cons ka rest ih =>
    obtain ⟨k', a'⟩ := ka
    by_cases h : k' = k
    · simp [setAgg, getAgg, h]
    · simp [setAgg, getAgg, h, ih]

theorem getAgg_setAgg_ne (fd : Store) (k k' : FolderKey) (a : Agg) (h : k' ≠ k) :
    getAgg (setAgg fd k a) k' = getAgg fd k' := by
  induction fd with
  | nil =>
    simp only [setAgg, getAgg]
    rw [if_neg (fun hh => h (Eq.symm hh))]
  | cons ka rest ih =>
    obtain ⟨k0, a0⟩ := ka
    by_cases h0 : k0 = k
    · simp only [setAgg, if_pos h0, getAgg]
      rw [if_neg (fun hh => h ((Eq.symm hh).trans h0)),
        if_neg (fun hh => h ((Eq.symm hh).trans h0))]
    · simp only [setAgg, if_neg h0, getAgg]
      by_cases h1 : k0 = k'
      · rw [if_pos h1, if_pos h1]
      · rw [if_neg h1, if_neg h1, ih]

theorem keys_setAgg (fd : Store) (k : FolderKey) (a : Agg) :
    (setAgg fd k a).map Prod.fst = fd.map Prod.fst ∨
      (setAgg fd k a).map Prod.fst = fd.map Prod.fst ++ [k] := by
  induction fd with
  | nil => right; rfl
  | cons p rest ih =>
    obtain ⟨k0, a0⟩ := p
    by_cases h0 : k0 = k
    · left; simp [setAgg, h0]
    · rcases ih with h1 | h1
      · left; simp [setAgg, h0, h1]
      · right; simp [setAgg, h0, h1]

theorem mem_keys_setAgg (fd : Store) (k k' : FolderKey) (a : Agg)
    (h : k' ∈ fd.map Prod.fst) : k' ∈ (setAgg fd k a).map Prod.fst := by
  rcases keys_setAgg fd k a with h1 | h1
  · rw [h1]; exact h
  · rw [h1]; exact List.mem_append_left _ h

theorem mem_setAgg (fd : Store) (k : FolderKey) (a : Agg) (ka : FolderKey × Agg)
    (h : ka ∈ setAgg fd k a) : ka ∈ fd ∨ ka = (k, a) := by
  induction fd with
  | nil =>
    right
    simpa [setAgg] using h
  | cons p rest ih =>
    obtain ⟨k0, a0⟩ := p
    by_cases h0 : k0 = k
    · simp only [setAgg, if_pos h0] at h
      rcases List.mem_cons.mp h with h1 | h1
      · right; rw [h1, h0]
      · left; exact List.mem_cons_of_mem _ h1
    · simp only [setAgg, if_neg h0] at h
      rcases List.mem_cons.mp h with h1 | h1
      · left; rw [h1]; exact List.mem_cons_self _ _
      · rcases ih h1 with h2 | h2
        · left; exact List.mem_cons_of_mem _ h2
        · right; exact h2

theorem processRowStep_fst (fd : Store) (row : List String) :
    (processRowStep fd row).1 =
      match rowDecomp row with
      | some ks => applyAgg fd ks.1 (extractLength row) ks.2
      | none => fd := by
  unfold processRowStep rowDecomp
  cases h : findFullName row with
  | none => rfl
  | some fn =>
    by_cases hfn : fn = ""
    · simp [hfn]
    · simp only [hfn, if_false, if_neg hfn]
      cases hd : decomposePath fn with
      | none => rfl
      | some ks => rfl

theorem processRowStep_snd_isNone (fd : Store) (row : List String) :
    (processRowStep fd row).2.isNone = (rowDecomp row).isSome := by
  unfold processRowStep rowDecomp
  cases h : findFullName row with
  | none => rfl
  | some fn =>
    by_cases hfn : fn = ""
    · simp [hfn]
    · simp only [if_neg hfn]
      cases hd : decomposePath fn with
      | none => rfl
      | some ks => rfl

theorem applyRow_attributed (fd : Store) (row : List String) (ks : FolderKey × List String)
    (h : rowDecomp row = some ks) :
    applyRow fd row = applyAgg fd ks.1 (extractLength row) ks.2 := by
  unfold applyRow
  rw [processRowStep_fst, h]

theorem applyRow_skipped (fd : Store) (row : List String)
    (h : rowDecomp row = none) : applyRow fd row = fd := by
  unfold applyRow
  rw [processRowStep_fst, h]

theorem processChunk_fd (c : List (ℕ × List String)) : ∀ fd sn,
    (processChunk fd sn c).fd = c.foldl (fun fd lr => applyRow fd lr.2) fd := by
  induction c with
  | nil => intro fd sn; rfl
  | cons lr rest ih =>
    intro fd sn
    obtain ⟨ln, row⟩ := lr
    simp only [processChunk, List.foldl_cons]
    rw [ih]
    rfl

theorem processChunk_errs_len (c : List (ℕ × List String)) : ∀ fd sn,
    (processChunk fd sn c).errs.length = c.countP (fun lr => (rowDecomp lr.2).isNone) := by
  induction c with
  | nil => intro fd sn; rfl
  | cons lr rest ih =>
    intro fd sn
    obtain ⟨ln, row⟩ := lr
    have h := processRowStep_snd_isNone fd row
    simp only [processChunk, List.countP_cons, List.length_append, ih]
    cases h3 : rowDecomp row with
    | none =>
      have hs : (processRowStep fd row).2.isNone = false := by rw [h, h3]; rfl
      cases h2 : (processRowStep fd row).2 with
      | none => rw [h2] at hs; simp at hs
      | some m => simp [h2, h3, Nat.add_comm]
    | some ks =>
      have hs : (processRowStep fd row).2.isNone = true := by rw [h, h3]; rfl
      cases h2 : (processRowStep fd row).2 with
      | some m => rw [h2] at hs; simp at hs
      | none => simp [h2, h3]

theorem runFold_fd (cs : ℕ) (sn : String) (lrs : List (ℕ × List String)) : ∀ st : RunState,
    (finishRun sn (lrs.foldl (csvStep cs sn) st)).folderData =
      (st.chunk ++ lrs.filter (fun lr => !decide (lr.2.length < 3))).foldl
        (fun fd lr => applyRow fd lr.2) st.folderData := by
  induction lrs with
  | nil =>
    intro st
    simp only [List.foldl_nil, List.filter_nil, List.append_nil, finishRun]
    cases hc : st.chunk with
    | nil => simp [hc]
    | cons a l =>
      simp only [hc, List.isEmpty_cons, Bool.false_eq_true, if_false]
      rw [processChunk_fd]
  | cons lr rest ih =>
    intro st
    rw [List.foldl_cons]
    by_cases h3 : lr.2.length < 3
    · rw [List.filter_cons_of_neg (by simp [h3])]
      have hstep : csvStep cs sn st lr =
          ⟨st.folderData, st.errors ++ [(lr.1, "Too few columns — line skipped.")], st.chunk⟩ := by
        simp [csvStep, h3]
      rw [hstep, ih]
    · rw [List.filter_cons_of_pos (by simp [h3])]
      by_cases hflush : cs ≤ (st.chunk ++ [lr]).length
      · have hflush1 : cs ≤ st.chunk.length + 1 := by simpa using hflush
        have hstep : csvStep cs sn st lr =
            ⟨(processChunk st.folderData sn (st.chunk ++ [lr])).fd,
              st.errors ++ (processChunk st.folderData sn (st.chunk ++ [lr])).errs, []⟩ := by
          simp [csvStep, h3, hflush1]
        rw [hstep, ih]
        simp only [List.nil_append, processChunk_fd, ← List.foldl_append]
        rw [List.append_assoc, List.singleton_append]
      · have hflush1 : ¬ cs ≤ st.chunk.length + 1 := by simpa using hflush
        have hstep : csvStep cs sn st lr =
            ⟨st.folderData, st.errors, st.chunk ++ [lr]⟩ := by
          simp [csvStep, h3, hflush1]
        rw [hstep, ih]
        simp only [List.append_assoc, List.singleton_append]

theorem runFold_errs (cs : ℕ) (sn : String) (lrs : List (ℕ × List String)) : ∀ st : RunState,
    (finishRun sn (lrs.foldl (csvStep cs sn) st)).errors.length =
      st.errors.length + st.chunk.countP (fun lr => (rowDecomp lr.2).isNone)
        + (lrs.map (fun lr => errWeight lr.2)).sum := by
  induction lrs with
  | nil =>
    intro st
    simp only [List.foldl_nil, List.map_nil, List.sum_nil, Nat.add_zero, finishRun]
    cases hc : st.chunk with
    | nil => simp [hc]
    | cons a l =>
      simp only [hc, List.isEmpty_cons, Bool.false_eq_true, if_false]
      rw [List.length_append, processChunk_errs_len]
  | cons lr rest ih =>
    intro st
    rw [List.foldl_cons, List.map_cons, List.sum_cons]
    by_cases h3 : lr.2.length < 3
    · have hw : errWeight lr.2 = 1 := by simp [errWeight, h3]
      have hstep : csvStep cs sn st lr =
          ⟨st.folderData, st.errors ++ [(lr.1, "Too few columns — line skipped.")], st.chunk⟩ := by
        simp [csvStep, h3]
      rw [hstep, ih, hw]
      simp only [List.length_append, List.length_cons, List.length_nil]
      omega
    · have hw : errWeight lr.2 = if (rowDecomp lr.2).isNone then 1 else 0 := by
        simp only [errWeight, if_neg h3]
      by_cases hflush : cs ≤ (st.chunk ++ [lr]).length
      · have hflush1 : cs ≤ st.chunk.length + 1 := by simpa using hflush
        have hstep : csvStep cs sn st lr =
            ⟨(processChunk st.folderData sn (st.chunk ++ [lr])).fd,
              st.errors ++ (processChunk st.folderData sn (st.chunk ++ [lr])).errs, []⟩ := by
          simp [csvStep, h3, hflush1]
        rw [hstep, ih, hw]
        simp only [List.length_append, processChunk_errs_len, List.countP_append,
          List.countP_cons, List.countP_nil]
        omega
      · have hflush1 : ¬ cs ≤ st.chunk.length + 1 := by simpa using hflush
        have hstep : csvStep cs sn st lr =
            ⟨st.folderData, st.errors, st.chunk ++ [lr]⟩ := by
          simp [csvStep, h3, hflush1]
        rw [hstep, ih, hw]
        simp only [List.countP_append, List.countP_cons, List.countP_nil, Nat.zero_add]
        omega

theorem enumFrom_map_snd (l : List (List String)) : ∀ n,
    (List.enumFrom n l).map Prod.snd = l := by
  induction l with
  | nil => intro n; rfl
  | cons a rest ih => intro n; simp [List.enumFrom, ih]

theorem numberRows_map_snd (rows : List (List String)) :
    (numberRows rows).map Prod.snd = rows := by
  unfold numberRows
  rw [List.map_map]
  have h : (Prod.snd ∘ fun p : ℕ × List String => (p.1 + 2, p.2)) = Prod.snd := rfl
  rw [h]
  have h2 : rows.enum = List.enumFrom 0 rows := rfl
  rw [h2, enumFrom_map_snd]

theorem keepFilter_map_snd (l : List (ℕ × List String)) :
    (l.filter (fun lr => !decide (lr.2.length < 3))).map Prod.snd =
      (l.map Prod.snd).filter (fun r => !decide (r.length < 3)) := by
  induction l with
  | nil => rfl
  | cons a rest ih =>
    by_cases h : a.2.length < 3
    · simp [List.filter_cons, h, ih]
    · simp [List.filter_cons, h, ih]

theorem processCsv_folderData (cs : ℕ) (rows : List (List String)) :
    (processCsv cs rows).folderData = singleBatchFolderData rows := by
  have h0 : (processCsv cs rows).folderData =
      (finishRun "Unknown"
        ((numberRows rows).foldl (csvStep cs "Unknown") ⟨[], [], []⟩)).folderData := rfl
  rw [h0, runFold_fd]
  have h1 : ((numberRows rows).filter (fun lr => !decide (lr.2.length < 3))).map Prod.snd =
      rows.filter (fun r => !decide (r.length < 3)) := by
    rw [keepFilter_map_snd, numberRows_map_snd]
  unfold singleBatchFolderData
  rw [← h1, List.foldl_map]
  rfl

theorem processCsv_errors_len (cs : ℕ) (rows : List (List String)) :
    (processCsv cs rows).errors.length = (rows.map errWeight).sum := by
  have h0 : (processCsv cs rows).errors =
      (finishRun "Unknown"
        ((numberRows rows).foldl (csvStep cs "Unknown") ⟨[], [], []⟩)).errors := rfl
  rw [h0, runFold_errs]
  have h1 : (numberRows rows).map (fun lr => errWeight lr.2) = rows.map errWeight := by
    have h2 : (numberRows rows).map (fun lr => errWeight lr.2) =
        ((numberRows rows).map Prod.snd).map errWeight := by
      rw [List.map_map]; rfl
    rw [h2, numberRows_map_snd]
  rw [h1]
  simp

/-- Componentwise order on aggregate buckets, used to state monotonicity. -/
def aggLE (a b : Agg) : Prop :=
  a.size ≤ b.size ∧ a.subfolders ⊆ b.subfolders ∧ a.files ≤ b.files

theorem aggLE_refl (a : Agg) : aggLE a a :=
  ⟨le_refl _, Finset.Subset.refl _, le_refl _⟩

theorem aggLE_trans (a b c : Agg) (h1 : aggLE a b) (h2 : aggLE b c) : aggLE a c :=
  ⟨le_trans h1.1 h2.1, Finset.Subset.trans h1.2.1 h2.2.1, le_trans h1.2.2 h2.2.2⟩

theorem getAgg_applyAgg_le (fd : Store) (k0 k : FolderKey) (len : ℕ) (subs : List String) :
    aggLE (getAgg fd k) (getAgg (applyAgg fd k0 len subs) k) := by
  simp only [applyAgg]
  by_cases hk : k = k0
  · subst hk
    rw [getAgg_setAgg_self]
    exact ⟨Nat.le_add_right _ _, Finset.subset_union_left, Nat.le_add_right _ _⟩
  · rw [getAgg_setAgg_ne fd k0 k _ hk]
    exact aggLE_refl _

theorem getAgg_applyRow_le (fd : Store) (row : List String) (k : FolderKey) :
    aggLE (getAgg fd k) (getAgg (applyRow fd row) k) := by
  cases h : rowDecomp row with
  | none => rw [applyRow_skipped fd row h]; exact aggLE_refl _
  | some ks => rw [applyRow_attributed fd row ks h]; exact getAgg_applyAgg_le _ _ _ _ _

theorem getAgg_foldl_le (rows : List (List String)) : ∀ (fd : Store) (k : FolderKey),
    aggLE (getAgg fd k) (getAgg (rows.foldl applyRow fd) k) := by
  induction rows with
  | nil => intro fd k; exact aggLE_refl _
  | cons r rest ih =>
    intro fd k
    rw [List.foldl_cons]
    exact aggLE_trans _ _ _ (getAgg_applyRow_le fd r k) (ih (applyRow fd r) k)

theorem keys_applyRow (fd : Store) (row : List String) (k : FolderKey)
    (h : k ∈ fd.map Prod.fst) : k ∈ (applyRow fd row).map Prod.fst := by
  cases h1 : rowDecomp row with
  | none => rw [applyRow_skipped fd row h1]; exact h
  | some ks =>
    rw [applyRow_attributed fd row ks h1]
    simp only [applyAgg]
    exact mem_keys_setAgg _ _ _ _ h

theorem keys_foldl (rows : List (List String)) : ∀ (fd : Store) (k : FolderKey),
    k ∈ fd.map Prod.fst → k ∈ (rows.foldl applyRow fd).map Prod.fst := by
  induction rows with
  | nil => intro fd k h; exact h
  | cons r rest ih =>
    intro fd k h
    rw [List.foldl_cons]
    exact ih (applyRow fd r) k (keys_applyRow fd r k h)

theorem files_pos_applyRow (fd : Store) (row : List String)
    (h : ∀ ka ∈ fd, 1 ≤ (Prod.snd ka).files) :
    ∀ ka ∈ applyRow fd row, 1 ≤ (Prod.snd ka).files := by
  intro ka hka
  cases h1 : rowDecomp row with
  | none => rw [applyRow_skipped fd row h1] at hka; exact h ka hka
  | some ks =>
    rw [applyRow_attributed fd row ks h1] at hka
    simp only [applyAgg] at hka
    rcases mem_setAgg _ _ _ _ hka with h2 | h2
    · exact h ka h2
    · rw [h2]
      exact Nat.le_add_left 1 _

theorem files_pos_foldl (rows : List (List String)) : ∀ (fd : Store),
    (∀ ka ∈ fd, 1 ≤ (Prod.snd ka).files) →
      ∀ ka ∈ rows.foldl applyRow fd, 1 ≤ (Prod.snd ka).files := by
  induction rows with
  | nil => intro fd h; exact h
  | cons r rest ih =>
    intro fd h
    rw [List.foldl_cons]
    exact ih (applyRow fd r) (files_pos_applyRow fd r h)

theorem getAgg_applyAgg_self (fd : Store) (k : FolderKey) (len : ℕ) (subs : List String) :
    getAgg (applyAgg fd k len subs) k =
      ⟨(getAgg fd k).size + len, (getAgg fd k).subfolders ∪ subs.toFinset,
        (getAgg fd k).files + 1⟩ := by
  simp only [applyAgg]
  exact getAgg_setAgg_self _ _ _

theorem errWeight_attributed (r : List String) (h : rowAttributed r = true) :
    errWeight r = 0 := by
  unfold rowAttributed at h
  rw [Bool.and_eq_true] at h
  have h1 : ¬ r.length < 3 := by simpa using h.1
  unfold errWeight
  rw [if_neg h1]
  cases hr : rowDecomp r with
  | none => rw [hr] at h; simp at h
  | some ks => simp [hr]

/-- C7: the final aggregate mapping is identical whether the rows are fed
through chunks of the configured size or the whole stream is processed as a
single batch: batch boundaries never influence any FolderKey's aggregate. -/
theorem c7_chunking_equivalence (cs cs2 : ℕ) (rows : List (List String)) :
    (processCsv cs rows).folderData = singleBatchFolderData rows ∧
    (processCsv cs rows).folderData = (processCsv cs2 rows).folderData := by
  refine ⟨processCsv_folderData cs rows, ?_⟩
  rw [processCsv_folderData cs rows, processCsv_folderData cs2 rows]

/-- C5: a run over one malformed row (fewer than 3 fields) surrounded by rows
that all attribute successfully logs exactly one error entry and produces the
same aggregates as the run without the malformed row; no row failure aborts
the processing. -/
theorem c5_malformed_row_isolation (cs : ℕ) (pre post : List (List String))
    (bad : List String) (hbad : bad.length < 3)
    (hvalid : ∀ r ∈ pre ++ post, rowAttributed r = true) :
    (processCsv cs (pre ++ [bad] ++ post)).errors.length = 1 ∧
    (processCsv cs (pre ++ [bad] ++ post)).folderData =
      (processCsv cs (pre ++ post)).folderData := by
  constructor
  · rw [processCsv_errors_len]
    have hpre : ((pre.map errWeight).sum) = 0 := by
      apply List.sum_eq_zero
      intro x hx
      rcases List.mem_map.mp hx with ⟨r, hr, hrx⟩
      rw [← hrx]
      exact errWeight_attributed r (hvalid r (List.mem_append_left _ hr))
    have hpost : ((post.map errWeight).sum) = 0 := by
      apply List.sum_eq_zero
      intro x hx
      rcases List.mem_map.mp hx with ⟨r, hr, hrx⟩
      rw [← hrx]
      exact errWeight_attributed r (hvalid r (List.mem_append_right _ hr))
    have hbadw : errWeight bad = 1 := by simp [errWeight, hbad]
    simp [List.map_append, List.sum_append, hpre, hpost, hbadw]
  · rw [processCsv_folderData, processCsv_folderData]
    unfold singleBatchFolderData
    have hq : (pre ++ [bad] ++ post).filter (fun r => !decide (r.length < 3)) =
        (pre ++ post).filter (fun r => !decide (r.length < 3)) := by
      simp [List.filter_append, List.filter_cons, hbad]
    rw [hq]

theorem c5_malformed_row_isolation_witness :
    (processCsv 100000 ([["x", "\\\\h\\s\\t\\f.txt", "1"]] ++ [["a", "b"]] ++ [])).errors.length = 1 ∧
    (processCsv 100000 ([["x", "\\\\h\\s\\t\\f.txt", "1"]] ++ [["a", "b"]] ++ [])).folderData =
      (processCsv 100000 ([["x", "\\\\h\\s\\t\\f.txt", "1"]] ++ [])).folderData :=
  c5_malformed_row_isolation 100000 [["x", "\\\\h\\s\\t\\f.txt", "1"]] [] ["a", "b"]
    (by decide) (by decide)

/-- C6: a row attributed to a FolderKey raises that key's file count by
exactly 1 and its cumulative size by exactly the parsed length; applying any
further row sequence never decreases any key's size, file count or
subfolder-set cardinality, and never removes a key from the store. -/
theorem c6_increment_and_monotone :
    (∀ (fd : Store) (row : List String) (ks : FolderKey × List String),
      rowDecomp row = some ks →
        (getAgg (applyRow fd row) ks.1).files = (getAgg fd ks.1).files + 1 ∧
        (getAgg (applyRow fd row) ks.1).size = (getAgg fd ks.1).size + extractLength row) ∧
    (∀ (fd : Store) (rows : List (List String)) (k : FolderKey),
      (getAgg fd k).size ≤ (getAgg (rows.foldl applyRow fd) k).size ∧
      (getAgg fd k).files ≤ (getAgg (rows.foldl applyRow fd) k).files ∧
      (getAgg fd k).subfolders.card ≤ (getAgg (rows.foldl applyRow fd) k).subfolders.card ∧
      (k ∈ fd.map Prod.fst → k ∈ (rows.foldl applyRow fd).map Prod.fst)) := by
  constructor
  · intro fd row ks h
    rw [applyRow_attributed fd row ks h, getAgg_applyAgg_self]
    exact ⟨rfl, rfl⟩
  · intro fd rows k
    have h := getAgg_foldl_le rows fd k
    exact ⟨h.1, h.2.2, Finset.card_le_card h.2.1, keys_foldl rows fd k⟩

theorem c6_increment_and_monotone_witness :
    (getAgg (applyRow [] ["x", "\\\\h\\s\\t\\f.txt", "7"]) ("\\\\h\\s", "t")).files =
      (getAgg ([] : Store) ("\\\\h\\s", "t")).files + 1 ∧
    (getAgg (applyRow [] ["x", "\\\\h\\s\\t\\f.txt", "7"]) ("\\\\h\\s", "t")).size =
      (getAgg ([] : Store) ("\\\\h\\s", "t")).size +
        extractLength ["x", "\\\\h\\s\\t\\f.txt", "7"] :=
  c6_increment_and_monotone.1 [] ["x", "\\\\h\\s\\t\\f.txt", "7"]
    (("\\\\h\\s", "t"), []) (by decide)

/-- C8: the parsed size of a row is exactly the first field, scanning left to
right, whose quote-stripped form is all decimal digits, and 0 when no such
field exists; an attributed row is counted (file count +1) and charged that
size either way. -/
theorem c8_size_rule (row : List String) :
    extractLength row = sizeSpec row ∧
    (∀ (fd : Store) (ks : FolderKey × List String), rowDecomp row = some ks →
      (getAgg (applyRow fd row) ks.1).size = (getAgg fd ks.1).size + sizeSpec row ∧
      (getAgg (applyRow fd row) ks.1).files = (getAgg fd ks.1).files + 1) := by
  have hmain : extractLength row = sizeSpec row := by
    induction row with
    | nil => rfl
    | cons p rest ih =>
      by_cases h : isDigitsStr (stripQuotes p) = true
      · have hfind : List.find? (fun q => isDigitsStr (stripQuotes q)) (p :: rest) = some p :=
          List.find?_cons_of_pos _ (by simpa using h)
        simp only [extractLength, if_pos h]
        unfold sizeSpec
        rw [hfind]
      · have hfind : List.find? (fun q => isDigitsStr (stripQuotes q)) (p :: rest) =
            List.find? (fun q => isDigitsStr (stripQuotes q)) rest :=
          List.find?_cons_of_neg _ (by simpa using h)
        simp only [extractLength, if_neg h]
        unfold sizeSpec
        rw [hfind]
        exact ih
  refine ⟨hmain, ?_⟩
  intro fd ks h
  rw [applyRow_attributed fd row ks h, getAgg_applyAgg_self, ← hmain]
  exact ⟨rfl, rfl⟩

theorem c8_size_rule_witness :
    (getAgg (applyRow [] ["x", "\\\\h\\s\\t\\f.txt", "zz"]) ("\\\\h\\s", "t")).size =
      (getAgg ([] : Store) ("\\\\h\\s", "t")).size +
        sizeSpec ["x", "\\\\h\\s\\t\\f.txt", "zz"] ∧
    (getAgg (applyRow [] ["x", "\\\\h\\s\\t\\f.txt", "zz"]) ("\\\\h\\s", "t")).files =
      (getAgg ([] : Store) ("\\\\h\\s", "t")).files + 1 :=
  (c8_size_rule ["x", "\\\\h\\s\\t\\f.txt", "zz"]).2 [] (("\\\\h\\s", "t"), []) (by decide)

/-- C10: every FolderKey present in the final aggregate mapping has a file
count of at least 1 — buckets are only ever created by the row that is
attributed to them in the same step. -/
theorem c10_buckets_counted (cs : ℕ) (rows : List (List String))
    (ka : FolderKey × Agg) (h : ka ∈ (processCsv cs rows).folderData) :
    1 ≤ (Prod.snd ka).files := by
  rw [processCsv_folderData] at h
  unfold singleBatchFolderData at h
  exact files_pos_foldl _ [] (by intro x hx; simp at hx) ka h

theorem c10_buckets_counted_witness :
    1 ≤ (Prod.snd ((("\\\\h\\s", "t") : FolderKey), (⟨10, ∅, 1⟩ : Agg))).files :=
  c10_buckets_counted 100000 [["SRV1", "\\\\h\\s\\t\\f.txt", "10"]]
    (("\\\\h\\s", "t"), ⟨10, ∅, 1⟩) (by decide)

/-- Unfolding of subfolderList through the spec-modelled generator: the two
generation expressions coincide; only the discard condition is at stake. -/
theorem subfolderList_eq (parts : List String) :
    subfolderList parts = if containsChar (parts.getLastD "") '.'
      then (cumulativeEntries parts).dropLast else cumulativeEntries parts := rfl

/-- C2 counterexample: for the path \\h\s\t\sub.d\leaf the leaf segment
"leaf" contains no period, the generation step yields the single entry
"sub.d", and yet the source discards it — the test looks at the deepest
directory segment "sub.d", not at the leaf — so the row is attributed with an
empty subfolder list. -/
theorem c2_leaf_rule_counterexample :
    containsChar "leaf" '.' = false ∧
    cumulativeEntries ["h", "s", "t", "sub.d"] = ["sub.d"] ∧
    rowDecomp ["srv", "\\\\h\\s\\t\\sub.d\\leaf", "1"] =
      some (("\\\\h\\s", "t"), []) := by
  decide

/-- C2 (amended): for every directory-segment list with more than 3 segments,
the generated cumulative subfolder entries survive intact exactly when the
last directory segment (parts[-1], the parent of the dropped leaf) contains
no period; when it does contain one, exactly the deepest generated entry is
discarded.  The leaf segment itself never influences the discard. -/
theorem c2_discard_condition (parts : List String) (h : 3 < parts.length) :
    (subfolderList parts = cumulativeEntries parts ↔
      containsChar (parts.getLastD "") '.' = false) ∧
    (containsChar (parts.getLastD "") '.' = true →
      subfolderList parts = (cumulativeEntries parts).dropLast) := by
  have hlen : (cumulativeEntries parts).length = parts.length - 3 := by
    simp [cumulativeEntries]
  have hne : (cumulativeEntries parts).dropLast ≠ cumulativeEntries parts := by
    intro heq
    have h3 := congrArg List.length heq
    rw [List.length_dropLast, hlen] at h3
    omega
  cases hc : containsChar (parts.getLastD "") '.'
  · constructor
    · constructor
      · intro _
        rfl
      · intro _
        rw [subfolderList_eq, hc]
        simp
    · intro hcc
      exact absurd hcc (by simp)
  · constructor
    · constructor
      · intro heq
        exfalso
        rw [subfolderList_eq, hc] at heq
        simp only [if_true] at heq
        exact hne heq
      · intro hf
        exact absurd hf (by simp)
    · intro _
      rw [subfolderList_eq, hc]
      simp

theorem c2_discard_condition_witness :
    (subfolderList ["h", "s", "t", "a"] = cumulativeEntries ["h", "s", "t", "a"] ↔
      containsChar (["h", "s", "t", "a"].getLastD "") '.' = false) ∧
    (containsChar (["h", "s", "t", "a"].getLastD "") '.' = true →
      subfolderList ["h", "s", "t", "a"] = (cumulativeEntries ["h", "s", "t", "a"]).dropLast) :=
  c2_discard_condition ["h", "s", "t", "a"] (by decide)

/-- C3 counterexample: applying the row with path
\\host\share\top\sub1\sub2\file.ext and size 7 to the empty store yields a
bucket for (\\host\share, top) whose subfolder set does NOT contain the
string "top\sub1" the claim requires (the entries produced are "sub1" and
"sub1\sub2", relative to the top-level folder). -/
theorem c3_subfolder_prefix_counterexample :
    (getAgg (applyRow [] ["srv", "\\\\host\\share\\top\\sub1\\sub2\\file.ext", "7"])
      ("\\\\host\\share", "top")).files = 1 ∧
    (getAgg (applyRow [] ["srv", "\\\\host\\share\\top\\sub1\\sub2\\file.ext", "7"])
      ("\\\\host\\share", "top")).size = 7 ∧
    "top\\sub1" ∉ (getAgg (applyRow [] ["srv", "\\\\host\\share\\top\\sub1\\sub2\\file.ext", "7"])
      ("\\\\host\\share", "top")).subfolders ∧
    "sub1" ∈ (getAgg (applyRow [] ["srv", "\\\\host\\share\\top\\sub1\\sub2\\file.ext", "7"])
      ("\\\\host\\share", "top")).subfolders := by
  decide

/-- C3 (amended): for every prior store and every all-digit size field S, the
row [srv, \\host\share\top\sub1\sub2\file.ext, S] is attributed to the key
(\\host\share, top): its file count rises by exactly 1 (hence is ≥ 1), its
cumulative size by exactly S, and its subfolder set gains "sub1" and
"sub1\sub2" — subfolder entries are written relative to the top-level folder
and never carry the "top\" prefix. -/
theorem c3_row_aggregate (st : Store) (sf : String)
    (hsf : isDigitsStr (stripQuotes sf) = true) :
    (getAgg (applyRow st ["srv", "\\\\host\\share\\top\\sub1\\sub2\\file.ext", sf])
        ("\\\\host\\share", "top")).files =
      (getAgg st ("\\\\host\\share", "top")).files + 1 ∧
    1 ≤ (getAgg (applyRow st ["srv", "\\\\host\\share\\top\\sub1\\sub2\\file.ext", sf])
        ("\\\\host\\share", "top")).files ∧
    (getAgg (applyRow st ["srv", "\\\\host\\share\\top\\sub1\\sub2\\file.ext", sf])
        ("\\\\host\\share", "top")).size =
      (getAgg st ("\\\\host\\share", "top")).size + toNatDigits (stripQuotes sf) ∧
    "sub1" ∈ (getAgg (applyRow st ["srv", "\\\\host\\share\\top\\sub1\\sub2\\file.ext", sf])
        ("\\\\host\\share", "top")).subfolders ∧
    "sub1\\sub2" ∈ (getAgg (applyRow st ["srv", "\\\\host\\share\\top\\sub1\\sub2\\file.ext", sf])
        ("\\\\host\\share", "top")).subfolders := by
  have hdec : rowDecomp ["srv", "\\\\host\\share\\top\\sub1\\sub2\\file.ext", sf] =
      some (("\\\\host\\share", "top"), ["sub1", "sub1\\sub2"]) := rfl
  have hlen : extractLength ["srv", "\\\\host\\share\\top\\sub1\\sub2\\file.ext", sf] =
      toNatDigits (stripQuotes sf) := by
    have h1 : extractLength ["srv", "\\\\host\\share\\top\\sub1\\sub2\\file.ext", sf] =
        extractLength [sf] := rfl
    rw [h1]
    simp only [extractLength]
    rw [if_pos hsf]
  rw [applyRow_attributed st _ _ hdec, getAgg_applyAgg_self, hlen]
  refine ⟨rfl, Nat.le_add_left 1 _, rfl, ?_, ?_⟩
  · exact Finset.mem_union_right _ (by decide)
  · exact Finset.mem_union_right _ (by decide)

theorem c3_row_aggregate_witness :
    (getAgg (applyRow [] ["srv", "\\\\host\\share\\top\\sub1\\sub2\\file.ext", "7"])
        ("\\\\host\\share", "top")).files =
      (getAgg ([] : Store) ("\\\\host\\share", "top")).files + 1 ∧
    1 ≤ (getAgg (applyRow [] ["srv", "\\\\host\\share\\top\\sub1\\sub2\\file.ext", "7"])
        ("\\\\host\\share", "top")).files ∧
    (getAgg (applyRow [] ["srv", "\\\\host\\share\\top\\sub1\\sub2\\file.ext", "7"])
        ("\\\\host\\share", "top")).size =
      (getAgg ([] : Store) ("\\\\host\\share", "top")).size + toNatDigits (stripQuotes "7") ∧
    "sub1" ∈ (getAgg (applyRow [] ["srv", "\\\\host\\share\\top\\sub1\\sub2\\file.ext", "7"])
        ("\\\\host\\share", "top")).subfolders ∧
    "sub1\\sub2" ∈ (getAgg (applyRow [] ["srv", "\\\\host\\share\\top\\sub1\\sub2\\file.ext", "7"])
        ("\\\\host\\share", "top")).subfolders :=
  c3_row_aggregate [] "7" (by decide)

/-- C4 counterexample: the path \\a.b satisfies the claim's rejection
condition (after stripping surrounding backslashes and dropping the leaf, 0
segments remain, fewer than 2), yet the source attributes the row to the key
("", "Not Applicable") with no error logged, because its own test — fewer
than 3 raw segments before any backslash-stripping — passes (the raw split is
["", "", "a.b"]). -/
theorem c4_reject_condition_counterexample :
    specMalformed "\\\\a.b" = true ∧
    decomposePath "\\\\a.b" = some (("", "Not Applicable"), []) ∧
    (processRowStep [] ["srv", "\\\\a.b", "5"]).2 = none ∧
    (processRowStep [] ["srv", "\\\\a.b", "5"]).1 =
      [(("", "Not Applicable"), ⟨5, ∅, 1⟩)] := by
  decide

/-- C4 (amended): a path is rejected as malformed exactly when its
whitespace-trimmed form splits on backslash into fewer than 3 raw segments —
empty segments contributed by leading or trailing backslashes count, and the
spec's backslash-stripping happens only after this test.  A row whose found
path fails the raw test is logged with the malformed reason and leaves the
store untouched. -/
theorem c4_reject_condition :
    (∀ fn : String, decomposePath fn = none ↔ (splitBS (trimStr fn)).length < 3) ∧
    (∀ (fd : Store) (row : List String) (fn : String),
      findFullName row = some fn → fn ≠ "" → (splitBS (trimStr fn)).length < 3 →
      processRowStep fd row = (fd, some "FullName malformed — row skipped.")) := by
  constructor
  · intro fn
    constructor
    · intro h
      by_contra hlen
      simp only [decomposePath] at h
      rw [if_neg hlen] at h
      exact absurd h (by simp)
    · intro hlen
      simp only [decomposePath]
      rw [if_pos hlen]
  · intro fd row fn hfind hne hlen
    have hd : decomposePath fn = none := by
      simp only [decomposePath]
      rw [if_pos hlen]
    simp only [processRowStep, hfind, if_neg hne, hd]

theorem c4_reject_condition_witness :
    (decomposePath "a.b" = none ↔ (splitBS (trimStr "a.b")).length < 3) ∧
    processRowStep [] ["a.b\\c", "x", "y"] =
      ([], some "FullName malformed — row skipped.") :=
  ⟨c4_reject_condition.1 "a.b",
    c4_reject_condition.2 [] ["a.b\\c", "x", "y"] "a.b\\c"
      (by decide) (by decide) (by decide)⟩

/-- C1 (the code at the failing input): process_chunk does learn the server
identity SRV1 from the first field of the first row it sees, but process_csv
— whose server_name variable is what the report writes — still holds
"Unknown" after a run in which the row was successfully attributed: the
rebinding inside process_chunk never reaches the caller, so every report row
carries "Unknown" instead of the discovered identity. -/
theorem c1_server_name_lost :
    (processChunk [] "Unknown" [(2, ["SRV1", "\\\\h\\s\\t\\f.txt", "10"])]).sn = "SRV1" ∧
    (processCsv 100000 [["SRV1", "\\\\h\\s\\t\\f.txt", "10"]]).folderData =
      [(("\\\\h\\s", "t"), ⟨10, ∅, 1⟩)] ∧
    (processCsv 100000 [["SRV1", "\\\\h\\s\\t\\f.txt", "10"]]).serverName = "Unknown" := by
  decide

/-- C9: for a run whose sole row carries 1073741824 bytes (exactly 1 GiB),
that row is alone in its FolderKey bucket and its Data(GB) value — the byte
count divided by 1024³, then rounded to 2 decimal places — is exactly 1.
(Python performs the division on binary floats; for this input every float
step is exact, so the rational model coincides.) -/
theorem c9_one_gib_reports_one :
    (getAgg (processCsv 100000 [["srv", "\\\\h\\s\\f.txt", "1073741824"]]).folderData
      ("\\\\h\\s", "Not Applicable")).files = 1 ∧
    (getAgg (processCsv 100000 [["srv", "\\\\h\\s\\f.txt", "1073741824"]]).folderData
      ("\\\\h\\s", "Not Applicable")).size = 1073741824 ∧
    dataGB 1073741824 = 1 := by
  refine ⟨by decide, by decide, ?_⟩
  have h1 : ((1073741824 : ℕ) : ℚ) / 1024 ^ 3 = 1 := by norm_num
  unfold dataGB
  rw [h1]
  have h2 : (1 : ℚ) * 100 = 100 := by norm_num
  unfold pyRound2
  rw [h2]
  have h3 : roundHalfEven 100 = 100 := by
    unfold roundHalfEven
    have hf : Int.fract (100 : ℚ) = 0 := by norm_num [Int.fract]
    rw [hf]
    norm_num
  rw [h3]
  norm_num
